import Mathlib

/-! Formal model of the time-integration core of Prad_BD_181210.py (class
AtomicSolver): the derivative wrappers evolveDensity and
evolveDensity_withRefuelling with their negative-density clamp and the
refuelling adjustment, the recording of per-evaluation diagnostics into
additional_out, the resampling of those diagnostics onto the requested
output-time grid inside timeIntegrate, and the parameter-scan drivers.
External collaborators (the atomicpp rate provider computeDerivsHydrogen and
the scipy odeint driver) are modelled as function parameters; numpy arrays
are modelled as lists of rationals, and Python exceptions as Except String. -/

namespace Prad

/-- Python sequence indexing with negative-index wrap-around: index i reads
element i when 0 <= i, element len+i when i < 0, and is out of range (none)
otherwise.  Models numpy and list subscripting such as output_feval[n-1]. -/
def pyGet {α : Type} (xs : List α) (i : ℤ) : Option α :=
  if 0 ≤ i then xs.get? i.toNat
  else if 0 ≤ i + (xs.length : ℤ) then xs.get? (i + (xs.length : ℤ)).toNat
  else none

/-- np.searchsorted(xs, v, side=left) for a sorted xs: the number of
elements strictly below v, which is the leftmost insertion point. -/
def searchsortedLeft (xs : List ℚ) (v : ℚ) : ℕ :=
  xs.countP (fun x => decide (x < v))

/-- time_indices = np.searchsorted(self.t_values, time_at_step, side=left)
(line 170 of the source). -/
def timeIndices (tvals tcur : List ℚ) : List ℕ :=
  tcur.map (fun t => searchsortedLeft tvals t)

/-- The j-th slice assignment performed by the resampling loop of
timeIntegrate, as (row lower bound, row upper bound, log index read).
Write 0 is output_values[0:time_indices[0]] = output_feval[0]; write j for
1 <= j <= len(feval_at_step)-1 is the loop body at step = j-1:
output_values[time_indices[step]:time_indices[step+1]] =
output_feval[feval_at_step[step]-1]. -/
def writeAt (tvals tcur : List ℚ) (nfe : List ℕ) (j : ℕ) : ℕ × ℕ × ℤ :=
  if j = 0 then (0, (timeIndices tvals tcur).getD 0 0, 0)
  else ((timeIndices tvals tcur).getD (j - 1) 0, (timeIndices tvals tcur).getD j 0,
        (nfe.getD (j - 1) 0 : ℤ) - 1)

/-- Whether slice write w covers output row r. -/
def coversRow (w : ℕ × ℕ × ℤ) (r : ℕ) : Bool :=
  decide (w.1 ≤ r) && decide (r < w.2.1)

/-- Apply the first n slice writes in program order to a row-indexed array;
a later write overwrites an earlier one, as Python slice assignment does. -/
def applyWritesUpTo {α : Type} (log : List α) (wf : ℕ → ℕ × ℕ × ℤ) :
    ℕ → (ℕ → Option α) → ℕ → Option α
  | 0, f, i => f i
  | n + 1, f, i =>
      if coversRow (wf n) i then pyGet log (wf n).2.2
      else applyWritesUpTo log wf n f i

/-- Row i of the resampled output array for one diagnostic channel: the
channel log (one entry per derivative evaluation) redistributed over the
len(t_values) output rows by the slice writes of timeIntegrate.  Rows no
write covers keep the np.zeros initial value z; rows at or beyond
len(t_values) do not exist.  The scalar and the array branch of the source
use the same fill logic, so the element type α is a parameter. -/
def resampleOut {α : Type} (z : α) (tvals tcur : List ℚ) (nfe : List ℕ)
    (log : List α) (i : ℕ) : Option α :=
  if i < tvals.length then
    applyWritesUpTo log (writeAt tvals tcur nfe) nfe.length (fun _ => some z) i
  else none

/-- How many of the slice writes of one resampling pass cover output row r
(0 means the row keeps its np.zeros initial value). -/
def fillCount (tvals tcur : List ℚ) (nfe : List ℕ) (r : ℕ) : ℕ :=
  if r < tvals.length then
    (List.range nfe.length).countP (fun j => coversRow (writeAt tvals tcur nfe j) r)
  else 0

/-- The named diagnostic channels of additional_out (the dict keys of
AtomicSolver.__init__, line 89). -/
inductive Channel : Type where
  | Prad
  | Pcool
  | dNzk
  | F_zk
  | dNe
  | F_i
  | dNn
  | F_n
deriving DecidableEq

/-- A Python value as stored in an additional_out channel list: a scalar or
a numpy array. -/
inductive PyVal : Type where
  | scalar (q : ℚ)
  | array (l : List ℚ)
deriving DecidableEq

/-- The derivative_struct returned by one computeDerivsHydrogen call: the
derivative vector dNzk, the radiated power Prad, and the further named
channels.  Which entries are scalars and which arrays is a modelling choice
for the external provider; the core records them without interpreting them. -/
structure DerivStruct : Type where
  Prad : ℚ
  Pcool : ℚ
  dNzk : List ℚ
  F_zk : List ℚ
  dNe : ℚ
  F_i : List ℚ
  dNn : ℚ
  F_n : List ℚ

/-- derivative_struct[key] for each named channel. -/
def channelValue (ds : DerivStruct) : Channel → PyVal
  | Channel.Prad => PyVal.scalar ds.Prad
  | Channel.Pcool => PyVal.scalar ds.Pcool
  | Channel.dNzk => PyVal.array ds.dNzk
  | Channel.F_zk => PyVal.array ds.F_zk
  | Channel.dNe => PyVal.scalar ds.dNe
  | Channel.F_i => PyVal.array ds.F_i
  | Channel.dNn => PyVal.scalar ds.dNn
  | Channel.F_n => PyVal.array ds.F_n

/-- self.additional_out_keys = [Prad, dNzk] (line 90 of the source): the
only channels the derivative wrappers append to. -/
def additionalOutKeys : List Channel := [Channel.Prad, Channel.dNzk]

/-- The append loop of the derivative wrappers: for key in
self.additional_out_keys: self.additional_out[key].append(
derivative_struct[key]). -/
def appendAdditionalOut (out : Channel → List PyVal) (ds : DerivStruct) :
    Channel → List PyVal :=
  additionalOutKeys.foldl
    (fun o key => fun c => if c = key then o c ++ [channelValue ds key] else o c) out

/-- Effect on the state array of the clamp loop (for k in range(len(Nzk)):
if Nzk[k] < 0: Nzk[k] = 0.0).  The loop writes element by element into the
array it was given, so this is both the array content afterwards and the
argument the provider receives. -/
def clampLoop (Nzk : List ℚ) : List ℚ :=
  Nzk.map (fun x => if x < 0 then 0 else x)

/-- dNzk[0] += v (no-op on an empty array, where Python would raise). -/
def addToHead : List ℚ → ℚ → List ℚ
  | [], _ => []
  | x :: xs, v => (x + v) :: xs

/-- The rate provider computeDerivsHydrogen, an external collaborator:
(Te, Ne, state, stage velocities) to a derivative struct. -/
def Provider : Type := ℚ → ℚ → List ℚ → List ℚ → DerivStruct

/-- Observable outcome of one derivative-wrapper call: the returned
derivative, the updated additional_out, the content of the caller-supplied
state array after the call (the clamp mutates it in place), and the state
array the provider was invoked with. -/
structure EvolveResult : Type where
  dNzk : List ℚ
  out : Channel → List PyVal
  NzkPost : List ℚ
  providerArg : List ℚ

/-- AtomicSolver.evolveDensity(Nzk, t, self, Te, Ne): clamp negative
densities to zero in place, call the provider on the clamped state, append
the recorded channels, return the raw derivative.  self enters through
Vzk, out and the provider P; t is passed by odeint but unused. -/
def evolveDensity (P : Provider) (Nzk : List ℚ) (t : ℚ) (Vzk : List ℚ)
    (out : Channel → List PyVal) (Te Ne : ℚ) : EvolveResult :=
  let Nzk1 := clampLoop Nzk
  let ds := P Te Ne Nzk1 Vzk
  { dNzk := ds.dNzk
    out := appendAdditionalOut out ds
    NzkPost := Nzk1
    providerArg := Nzk1 }

/-- AtomicSolver.evolveDensity_withRefuelling(Nzk, t, self, Te, Ne,
refuelling_rate): as evolveDensity, then add sum(Nzk)*r to dNzk[0] and
subtract sum(Nzk)*r*fraction_in_stage from every component.  The two
adjustments mutate the numpy array held in derivative_struct[dNzk] in
place, so the append loop that follows records the adjusted vector. -/
def evolveDensity_withRefuelling (P : Provider) (Nzk : List ℚ) (t : ℚ)
    (Vzk : List ℚ) (out : Channel → List PyVal) (Te Ne r : ℚ) : EvolveResult :=
  let Nzk1 := clampLoop Nzk
  let ds := P Te Ne Nzk1 Vzk
  let S := Nzk1.sum
  let fraction_in_stage := Nzk1.map (fun x => x / S)
  let d1 := addToHead ds.dNzk (S * r)
  let d2 := List.zipWith (fun a b => a - b) d1 (fraction_in_stage.map (fun f => S * r * f))
  let ds2 := { ds with dNzk := d2 }
  { dNzk := d2
    out := appendAdditionalOut out ds2
    NzkPost := Nzk1
    providerArg := Nzk1 }

/-- The ground-state-only vector timeIntegrate resets self.Nzk to after a
refuelling run (lines 204-205): np.zeros(Z+1) with Nzk[0] = 1e19. -/
def canonicalNzk (Z : ℕ) : List ℚ :=
  ((10 : ℚ) ^ 19) :: List.replicate Z 0

/-- The initial state set by AtomicSolver.__init__ (lines 84-85):
np.zeros(Z+1) with Nzk[0] = 1e20. -/
def initNzk (Z : ℕ) : List ℚ :=
  ((10 : ℚ) ^ 20) :: List.replicate Z 0

section Lemmas

/-- Every entry of a clamped state is non-negative. -/
theorem clampLoop_nonneg (l : List ℚ) : ∀ x ∈ clampLoop l, 0 ≤ x := by
  intro x hx
  rcases List.mem_map.mp hx with ⟨v, _, rfl⟩
  by_cases h : v < 0
  · simp [h]
  · simp [h]
    exact le_of_not_lt h

/-- Clamping an all-non-negative state changes nothing. -/
theorem clampLoop_eq_self (l : List ℚ) (h : ∀ x ∈ l, 0 ≤ x) : clampLoop l = l := by
  induction l with
  | nil => rfl
  | cons x xs ih =>
      have hx : ¬ x < 0 := not_lt.mpr (h x (List.mem_cons_self x xs))
      simp only [clampLoop, List.map_cons, if_neg hx]
      exact congrArg (x :: ·) (ih (fun y hy => h y (List.mem_cons_of_mem x hy)))

theorem clampLoop_length (l : List ℚ) : (clampLoop l).length = l.length :=
  List.length_map l _

theorem addToHead_length (l : List ℚ) (v : ℚ) : (addToHead l v).length = l.length := by
  cases l <;> rfl

theorem addToHead_sum (l : List ℚ) (v : ℚ) (h : l ≠ []) :
    (addToHead l v).sum = l.sum + v := by
  cases l with
  | nil => exact absurd rfl h
  | cons x xs => simp [addToHead]; ring

theorem sum_zipWith_sub (xs : List ℚ) :
    ∀ ys : List ℚ, xs.length = ys.length →
      (List.zipWith (fun a b => a - b) xs ys).sum = xs.sum - ys.sum := by
  induction xs with
  | nil =>
      intro ys h
      cases ys with
      | nil => simp
      | cons y ys => simp at h
  | cons x xs ih =>
      intro ys h
      cases ys with
      | nil => simp at h
      | cons y ys =>
          have h2 : xs.length = ys.length := by simpa using h
          simp [List.zipWith, ih ys h2]
          ring

theorem sum_map_div (l : List ℚ) (S : ℚ) :
    (l.map (fun x => x / S)).sum = l.sum / S := by
  induction l with
  | nil => simp
  | cons x xs ih => simp [ih, add_div]

theorem sum_map_mul_const (c : ℚ) (l : List ℚ) :
    (l.map (fun x => c * x)).sum = c * l.sum := by
  induction l with
  | nil => simp
  | cons x xs ih => simp [ih, mul_add]

/-- getD of a map, at an index inside the list. -/
theorem getD_map_getD {α β : Type} (f : α → β) (l : List α) :
    ∀ (k : ℕ), k < l.length → ∀ (d : β) (d2 : α),
      (l.map f).getD k d = f (l.getD k d2) := by
  induction l with
  | nil => intro k hk; simp at hk
  | cons x xs ih =>
      intro k hk d d2
      cases k with
      | zero => rfl
      | succ m =>
          simp only [List.map_cons, List.getD_cons_succ]
          exact ih m (by simpa using hk) d d2

end Lemmas

section ResamplerLemmas

theorem coversRow_iff (w : ℕ × ℕ × ℤ) (r : ℕ) :
    coversRow w r = true ↔ w.1 ≤ r ∧ r < w.2.1 := by
  simp [coversRow]

theorem coversRow_false_left (w : ℕ × ℕ × ℤ) (r : ℕ) (h : ¬ w.1 ≤ r) :
    coversRow w r = false := by
  simp [coversRow, h]

theorem coversRow_false_right (w : ℕ × ℕ × ℤ) (r : ℕ) (h : ¬ r < w.2.1) :
    coversRow w r = false := by
  simp [coversRow, h]

theorem applyWritesUpTo_covered {α : Type} (log : List α) (wf : ℕ → ℕ × ℕ × ℤ)
    (i : ℕ) :
    ∀ (n : ℕ) (f : ℕ → Option α) (k : ℕ),
      k < n → coversRow (wf k) i = true →
      (∀ j, k < j → j < n → coversRow (wf j) i = false) →
      applyWritesUpTo log wf n f i = pyGet log (wf k).2.2 := by
  intro n
  induction n with
  | zero => intro f k hk _ _; exact absurd hk (Nat.not_lt_zero k)
  | succ m ih =>
      intro f k hk hc hlater
      by_cases hkm : k = m
      · subst hkm
        simp [applyWritesUpTo, hc]
      · have hlt : k < m := Nat.lt_of_le_of_ne (Nat.le_of_lt_succ hk) hkm
        have hm : coversRow (wf m) i = false := hlater m hlt (Nat.lt_succ_self m)
        simp only [applyWritesUpTo, hm, Bool.false_eq_true, if_false]
        exact ih f k hlt hc (fun j h1 h2 => hlater j h1 (Nat.lt_succ_of_lt h2))

theorem writeAt_zero (tvals tcur : List ℚ) (nfe : List ℕ) :
    writeAt tvals tcur nfe 0 = (0, (timeIndices tvals tcur).getD 0 0, 0) := rfl

theorem writeAt_succ (tvals tcur : List ℚ) (nfe : List ℕ) (j : ℕ) :
    writeAt tvals tcur nfe (j + 1)
      = ((timeIndices tvals tcur).getD j 0,
         (timeIndices tvals tcur).getD (j + 1) 0,
         (nfe.getD j 0 : ℤ) - 1) := by
  simp [writeAt]

theorem timeIndices_getD (tvals tcur : List ℚ) (k : ℕ) (hk : k < tcur.length) :
    (timeIndices tvals tcur).getD k 0 = searchsortedLeft tvals (tcur.getD k 0) :=
  getD_map_getD _ tcur k hk 0 0

theorem searchsortedLeft_mono (tvals : List ℚ) (v w : ℚ) (h : v ≤ w) :
    searchsortedLeft tvals v ≤ searchsortedLeft tvals w := by
  apply List.countP_mono_left
  intro x _ hx
  simp only [decide_eq_true_eq] at hx ⊢
  exact lt_of_lt_of_le hx h

theorem tcur_getD_mono (tcur : List ℚ) (hmono : List.Pairwise (· ≤ ·) tcur)
    (a b : ℕ) (hab : a ≤ b) (hb : b < tcur.length) :
    tcur.getD a 0 ≤ tcur.getD b 0 := by
  rcases Nat.eq_or_lt_of_le hab with h | h
  · subst h; exact le_refl _
  · have ha : a < tcur.length := lt_trans h hb
    have hget := List.pairwise_iff_get.mp hmono ⟨a, ha⟩ ⟨b, hb⟩ h
    rw [List.getD_eq_get?, List.getD_eq_get?, List.get?_eq_get ha, List.get?_eq_get hb]
    simpa using hget

theorem timeIndices_getD_mono (tvals tcur : List ℚ)
    (hmono : List.Pairwise (· ≤ ·) tcur) (a b : ℕ) (hab : a ≤ b)
    (hb : b < tcur.length) :
    (timeIndices tvals tcur).getD a 0 ≤ (timeIndices tvals tcur).getD b 0 := by
  have ha : a < tcur.length := Nat.lt_of_le_of_lt hab hb
  rw [timeIndices_getD tvals tcur a ha, timeIndices_getD tvals tcur b hb]
  exact searchsortedLeft_mono tvals _ _ (tcur_getD_mono tcur hmono a b hab hb)

/-- Any row below the last write boundary of a nondecreasing boundary
sequence falls in exactly one step interval. -/
theorem exists_step (f : ℕ → ℕ) :
    ∀ (L : ℕ), 1 ≤ L → ∀ (r : ℕ), f 0 ≤ r → r < f (L - 1) →
      ∃ s, s + 1 ≤ L - 1 ∧ f s ≤ r ∧ r < f (s + 1) := by
  intro L
  induction L with
  | zero => intro h; exact absurd h (by norm_num)
  | succ m ih =>
      intro _ r h0 h1
      rcases Nat.eq_zero_or_pos m with hm | hm
      · subst hm
        simp only [Nat.add_sub_cancel] at h1
        exact absurd h1 (not_lt.mpr h0)
      · simp only [Nat.add_sub_cancel] at h1
        by_cases hr : r < f (m - 1)
        · rcases ih hm r h0 hr with ⟨s, hs1, hs2, hs3⟩
          exact ⟨s, by omega, hs2, hs3⟩
        · refine ⟨m - 1, by omega, not_lt.mp hr, ?_⟩
          have hmm : m - 1 + 1 = m := by omega
          rw [hmm]
          exact h1

theorem countP_range_one (p : ℕ → Bool) :
    ∀ (L : ℕ) (j0 : ℕ), j0 < L → p j0 = true →
      (∀ j, j < L → j ≠ j0 → p j = false) →
      (List.range L).countP p = 1 := by
  intro L
  induction L with
  | zero => intro j0 hj _ _; exact absurd hj (Nat.not_lt_zero j0)
  | succ m ih =>
      intro j0 hj hp hq
      rw [List.range_succ, List.countP_append]
      by_cases hm : j0 = m
      · subst hm
        have h0 : (List.range j0).countP p = 0 := by
          rw [List.countP_eq_zero]
          intro a ha
          have ham : a < j0 := List.mem_range.mp ha
          simp [hq a (Nat.lt_succ_of_lt ham) (Nat.ne_of_lt ham)]
        rw [h0]
        simp [List.countP_cons, hp]
      · have hj2 : j0 < m := Nat.lt_of_le_of_ne (Nat.le_of_lt_succ hj) hm
        rw [ih j0 hj2 hp (fun j h1 h2 => hq j (Nat.lt_succ_of_lt h1) h2)]
        have hpm : p m = false := hq m (Nat.lt_succ_self m) (fun h => hm h.symm)
        simp [List.countP_cons, hpm]

theorem pyGet_natCast {α : Type} (xs : List α) (k : ℕ) :
    pyGet xs (k : ℤ) = xs.get? k := by
  simp [pyGet]

theorem pyGet_zero {α : Type} (xs : List α) : pyGet xs 0 = xs.get? 0 := by
  simpa using pyGet_natCast xs 0

/-- Rows before the first time index receive the first log entry. -/
theorem resampleOut_first_region {α : Type} (z : α) (tvals tcur : List ℚ)
    (nfe : List ℕ) (log : List α) (i : ℕ)
    (hlen : tcur.length = nfe.length)
    (hmono : List.Pairwise (· ≤ ·) tcur)
    (hi : i < tvals.length)
    (h0 : i < (timeIndices tvals tcur).getD 0 0) :
    resampleOut z tvals tcur nfe log i = pyGet log 0 := by
  rcases Nat.eq_zero_or_pos nfe.length with hL | hL
  · exfalso
    have htc : tcur = [] := List.length_eq_zero.mp (by rw [hlen, hL])
    rw [htc] at h0
    simp [timeIndices] at h0
  · rw [resampleOut, if_pos hi]
    have hcov : coversRow (writeAt tvals tcur nfe 0) i = true := by
      rw [coversRow_iff, writeAt_zero]
      exact ⟨Nat.zero_le i, h0⟩
    have hlater : ∀ j, 0 < j → j < nfe.length →
        coversRow (writeAt tvals tcur nfe j) i = false := by
      intro j hj hjL
      have hj1 : j - 1 + 1 = j := by omega
      rw [← hj1, writeAt_succ]
      refine coversRow_false_left _ _ (not_le.mpr ?_)
      exact lt_of_lt_of_le h0
        (timeIndices_getD_mono tvals tcur hmono 0 (j - 1) (Nat.zero_le _)
          (by rw [hlen]; omega))
    have happ := applyWritesUpTo_covered log (writeAt tvals tcur nfe) i
      nfe.length (fun _ => some z) 0 hL hcov hlater
    rw [happ, writeAt_zero]

/-- Rows in the step interval of checkpoint s receive log entry
feval_at_step[s] - 1. -/
theorem resampleOut_slice {α : Type} (z : α) (tvals tcur : List ℚ)
    (nfe : List ℕ) (log : List α) (s i : ℕ)
    (hlen : tcur.length = nfe.length)
    (hmono : List.Pairwise (· ≤ ·) tcur)
    (hs : s + 1 < nfe.length)
    (hi : i < tvals.length)
    (h1 : (timeIndices tvals tcur).getD s 0 ≤ i)
    (h2 : i < (timeIndices tvals tcur).getD (s + 1) 0) :
    resampleOut z tvals tcur nfe log i = pyGet log ((nfe.getD s 0 : ℤ) - 1) := by
  rw [resampleOut, if_pos hi]
  have hcov : coversRow (writeAt tvals tcur nfe (s + 1)) i = true := by
    rw [coversRow_iff, writeAt_succ]
    exact ⟨h1, h2⟩
  have hlater : ∀ j, s + 1 < j → j < nfe.length →
      coversRow (writeAt tvals tcur nfe j) i = false := by
    intro j hj hjL
    have hj1 : j - 1 + 1 = j := by omega
    rw [← hj1, writeAt_succ]
    refine coversRow_false_left _ _ (not_le.mpr ?_)
    exact lt_of_lt_of_le h2
      (timeIndices_getD_mono tvals tcur hmono (s + 1) (j - 1) (by omega)
        (by rw [hlen]; omega))
  have happ := applyWritesUpTo_covered log (writeAt tvals tcur nfe) i
    nfe.length (fun _ => some z) (s + 1) hs hcov hlater
  rw [happ, writeAt_succ]

end ResamplerLemmas

/-- C1 counterexample: a run with t_values = [1,2,3], internal checkpoint
times tcur = [2,3] and cumulative evaluation counts nfe = [5,7] over a
7-entry log.  The claim says output rows 0..nfe[0]-1 = 0..4 all hold log
entry 0; but row 1 (which is below nfe[0] = 5) holds log entry 4, because
the row ranges of the fill come from searchsorted(t_values, tcur), not
from the evaluation counts. -/
theorem resampler_uses_time_indices_not_eval_counts :
    (1 : ℕ) < ([5, 7] : List ℕ).getD 0 0
    ∧ resampleOut (0 : ℚ) [1, 2, 3] [2, 3] [5, 7] [0, 1, 2, 3, 4, 5, 6] 1 = some 4
    ∧ resampleOut (0 : ℚ) [1, 2, 3] [2, 3] [5, 7] [0, 1, 2, 3, 4, 5, 6] 1
        ≠ pyGet [(0 : ℚ), 1, 2, 3, 4, 5, 6] 0 := by
  decide

/-- C1 amended: the resampler fill rule with the row ranges taken from
time_indices = searchsorted(t_values, time_at_step, side=left): for a run
with nondecreasing checkpoint times, rows before time_indices[0] hold log
entry 0, and rows in [time_indices[s], time_indices[s+1]) hold log entry
feval_at_step[s] - 1. -/
theorem resampler_fill_rule {α : Type} (z : α) (tvals tcur : List ℚ)
    (nfe : List ℕ) (log : List α)
    (hlen : tcur.length = nfe.length)
    (hmono : List.Pairwise (· ≤ ·) tcur) :
    (∀ i, i < (timeIndices tvals tcur).getD 0 0 → i < tvals.length →
        resampleOut z tvals tcur nfe log i = pyGet log 0)
    ∧ (∀ s i, s + 1 < nfe.length →
        (timeIndices tvals tcur).getD s 0 ≤ i →
        i < (timeIndices tvals tcur).getD (s + 1) 0 → i < tvals.length →
        resampleOut z tvals tcur nfe log i
          = pyGet log ((nfe.getD s 0 : ℤ) - 1)) := by
  constructor
  · intro i h0 hi
    exact resampleOut_first_region z tvals tcur nfe log i hlen hmono hi h0
  · intro s i hs h1 h2 hi
    exact resampleOut_slice z tvals tcur nfe log s i hlen hmono hs hi h1 h2

/-- C1 witness: the amended fill rule evaluated on the counterexample run
yields log entry nfe[0]-1 = 4 at row 1. -/
theorem resampler_fill_rule_witness :
    resampleOut (0 : ℚ) [1, 2, 3] [2, 3] [5, 7] [0, 1, 2, 3, 4, 5, 6] 1 = some 4 := by
  have h := (resampler_fill_rule (0 : ℚ) [1, 2, 3] [2, 3] [5, 7]
      [0, 1, 2, 3, 4, 5, 6] rfl (by decide)).2 0 1 (by decide) (by decide)
      (by decide) (by decide)
  rw [h]
  decide

/-- C2 counterexample: evalCountAtStep = [1,2] is strictly increasing from
1 to M = 2 and the log has M = 2 entries, yet for the run with
t_values = [1,2] and checkpoint times tcur = [2,2] the second output row
is covered by no slice write at all - it keeps its initial zero - because
the fill ranges come from searchsorted(t_values, tcur), which here stops
at row 1.  So it is false that every output row is filled exactly once. -/
theorem resampler_coverage_counterexample :
    ([1, 2] : List ℕ).getD 0 0 < ([1, 2] : List ℕ).getD 1 0
    ∧ ([1, 2] : List ℕ).getD 0 0 = 1
    ∧ ([1, 2] : List ℕ).getD 1 0 = ([(10 : ℚ), 20] : List ℚ).length
    ∧ (1 : ℕ) < ([(1 : ℚ), 2] : List ℚ).length
    ∧ fillCount [(1 : ℚ), 2] [(2 : ℚ), 2] [1, 2] 1 = 0 := by
  decide

/-- C2 amended: coverage of the resampler under the run conditions the
code actually depends on.  If the checkpoint times are nondecreasing, the
derived time_indices reach the end of the output grid, the log is
nonempty and every evaluation count lies in 1..M, then: every log index a
slice write reads is within 0..M-1, every output row is covered by exactly
one slice write, and each row holds log entry evalCountAtStep[s]-1 (log
entry 0 for rows before the first time index). -/
theorem resampler_coverage {α : Type} (z : α) (tvals tcur : List ℚ)
    (nfe : List ℕ) (log : List α)
    (hlen : tcur.length = nfe.length)
    (hL : 1 ≤ nfe.length)
    (hmono : List.Pairwise (· ≤ ·) tcur)
    (hcov : tvals.length ≤ (timeIndices tvals tcur).getD (nfe.length - 1) 0)
    (hlog : 1 ≤ log.length)
    (hnfe : ∀ s, s < nfe.length → 1 ≤ nfe.getD s 0 ∧ nfe.getD s 0 ≤ log.length) :
    (∀ j, j < nfe.length → 0 ≤ (writeAt tvals tcur nfe j).2.2
        ∧ (writeAt tvals tcur nfe j).2.2 < (log.length : ℤ))
    ∧ ∀ r, r < tvals.length →
        fillCount tvals tcur nfe r = 1
        ∧ ∃ v, resampleOut z tvals tcur nfe log r = some v
            ∧ ((r < (timeIndices tvals tcur).getD 0 0 ∧ log.get? 0 = some v)
               ∨ ∃ s, s + 1 < nfe.length
                   ∧ (timeIndices tvals tcur).getD s 0 ≤ r
                   ∧ r < (timeIndices tvals tcur).getD (s + 1) 0
                   ∧ log.get? (nfe.getD s 0 - 1) = some v) := by
  constructor
  · intro j hj
    cases j with
    | zero =>
        rw [writeAt_zero]
        dsimp only
        refine ⟨le_refl 0, ?_⟩
        exact_mod_cast hlog
    | succ m =>
        rw [writeAt_succ]
        dsimp only
        obtain ⟨hm1, hm2⟩ := hnfe m (by omega)
        have hm1z : (1 : ℤ) ≤ (nfe.getD m 0 : ℤ) := by exact_mod_cast hm1
        have hm2z : (nfe.getD m 0 : ℤ) ≤ (log.length : ℤ) := by exact_mod_cast hm2
        exact ⟨by omega, by omega⟩
  · intro r hr
    by_cases h0 : r < (timeIndices tvals tcur).getD 0 0
    · constructor
      · rw [fillCount, if_pos hr]
        apply countP_range_one _ nfe.length 0 hL
        · rw [coversRow_iff, writeAt_zero]
          exact ⟨Nat.zero_le r, h0⟩
        · intro j hjL hj0
          have hj1 : j - 1 + 1 = j := by omega
          rw [← hj1, writeAt_succ]
          refine coversRow_false_left _ _ (not_le.mpr ?_)
          exact lt_of_lt_of_le h0
            (timeIndices_getD_mono tvals tcur hmono 0 (j - 1) (Nat.zero_le _)
              (by rw [hlen]; omega))
      · have hval := resampleOut_first_region z tvals tcur nfe log r hlen hmono hr h0
        have hg : log.get? 0 = some (log.get ⟨0, hlog⟩) := List.get?_eq_get hlog
        refine ⟨log.get ⟨0, hlog⟩, ?_, Or.inl ⟨h0, hg⟩⟩
        rw [hval, pyGet_zero, hg]
    · have hstep := exists_step (fun j => (timeIndices tvals tcur).getD j 0)
        nfe.length hL r (not_lt.mp h0) (lt_of_lt_of_le hr hcov)
      obtain ⟨s, hs1, hs2, hs3⟩ := hstep
      have hsL : s + 1 < nfe.length := by omega
      constructor
      · rw [fillCount, if_pos hr]
        apply countP_range_one _ nfe.length (s + 1) hsL
        · rw [coversRow_iff, writeAt_succ]
          exact ⟨hs2, hs3⟩
        · intro j hjL hjs
          cases j with
          | zero =>
              rw [writeAt_zero]
              exact coversRow_false_right _ _ h0
          | succ m =>
              rw [writeAt_succ]
              have hms : m ≠ s := fun h => hjs (by rw [h])
              rcases Nat.lt_or_ge m s with hlt | hge
              · refine coversRow_false_right _ _ (not_lt.mpr ?_)
                exact le_trans
                  (timeIndices_getD_mono tvals tcur hmono (m + 1) s hlt
                    (by rw [hlen]; omega)) hs2
              · have hgt : s + 1 ≤ m := by omega
                refine coversRow_false_left _ _ (not_le.mpr ?_)
                exact lt_of_lt_of_le hs3
                  (timeIndices_getD_mono tvals tcur hmono (s + 1) m hgt
                    (by rw [hlen]; omega))
      · have hval := resampleOut_slice z tvals tcur nfe log s r hlen hmono hsL hr hs2 hs3
        obtain ⟨hm1, hm2⟩ := hnfe s (by omega)
        have hidx : nfe.getD s 0 - 1 < log.length := by omega
        have hg : log.get? (nfe.getD s 0 - 1)
            = some (log.get ⟨nfe.getD s 0 - 1, hidx⟩) := List.get?_eq_get hidx
        refine ⟨log.get ⟨nfe.getD s 0 - 1, hidx⟩, ?_,
          Or.inr ⟨s, hsL, hs2, hs3, hg⟩⟩
        have hcast : (nfe.getD s 0 : ℤ) - 1 = ((nfe.getD s 0 - 1 : ℕ) : ℤ) := by omega
        rw [hval, hcast, pyGet_natCast, hg]

/-- C2 witness: a covering run with t_values = [1,2], tcur = [2,3],
nfe = [1,2] and a two-entry log; output row 1 is filled exactly once. -/
theorem resampler_coverage_witness :
    fillCount [(1 : ℚ), 2] [(2 : ℚ), 3] [1, 2] 1 = 1 := by
  exact ((resampler_coverage (0 : ℚ) [(1 : ℚ), 2] [(2 : ℚ), 3] [1, 2]
      [(10 : ℚ), 20] rfl (by decide) (by decide) (by decide) (by decide)
      (by decide)).2 1 (by decide)).1

/-- C3: Refuelling mass balance.  For an all-non-negative state with
positive total density and any refuelling rate, the adjustment
evolveDensity_withRefuelling applies to the raw provider derivative leaves
the total derivative sum unchanged: the injection sum(Nzk)*r at stage 0 is
exactly cancelled by the proportional removal summed over all stages. -/
theorem refuelling_mass_balance (P : Provider) (Nzk : List ℚ) (t : ℚ)
    (Vzk : List ℚ) (out : Channel → List PyVal) (Te Ne r : ℚ)
    (hpos : ∀ x ∈ Nzk, 0 ≤ x) (hS : 0 < Nzk.sum) (hr : 0 < r)
    (hne : Nzk ≠ [])
    (hlen : (P Te Ne Nzk Vzk).dNzk.length = Nzk.length) :
    (evolveDensity_withRefuelling P Nzk t Vzk out Te Ne r).dNzk.sum
      = (P Te Ne Nzk Vzk).dNzk.sum := by
  have hcl : clampLoop Nzk = Nzk := clampLoop_eq_self Nzk hpos
  have hdne : (P Te Ne Nzk Vzk).dNzk ≠ [] := by
    intro h0
    rw [h0] at hlen
    exact hne (List.length_eq_zero.mp hlen.symm)
  have hS0 : Nzk.sum ≠ 0 := ne_of_gt hS
  have hlen2 : (addToHead (P Te Ne Nzk Vzk).dNzk (Nzk.sum * r)).length
      = ((Nzk.map (fun x => x / Nzk.sum)).map (fun f => Nzk.sum * r * f)).length := by
    rw [addToHead_length, List.length_map, List.length_map, hlen]
  simp only [evolveDensity_withRefuelling, hcl]
  rw [sum_zipWith_sub _ _ hlen2, addToHead_sum _ _ hdne]
  have h3 : ((Nzk.map (fun x => x / Nzk.sum)).map (fun f => Nzk.sum * r * f)).sum
      = Nzk.sum * r := by
    rw [sum_map_mul_const, sum_map_div, div_self hS0, mul_one]
  rw [h3]
  ring

/-- C3 witness: a concrete refuelling call whose adjusted derivative sums
to the raw derivative sum. -/
theorem refuelling_mass_balance_witness :
    (evolveDensity_withRefuelling (fun _ _ _ _ => ⟨0, 0, [1, 1], [], 0, [], 0, []⟩)
        [2, 3] 0 [0, 0] (fun _ => []) 7 11 5).dNzk.sum
      = ((⟨0, 0, [1, 1], [], 0, [], 0, []⟩ : DerivStruct)).dNzk.sum := by
  exact refuelling_mass_balance (fun _ _ _ _ => ⟨0, 0, [1, 1], [], 0, [], 0, []⟩)
    [2, 3] 0 [0, 0] (fun _ => []) 7 11 5
    (by intro x hx; fin_cases hx <;> norm_num)
    (by norm_num) (by norm_num) (by simp) rfl

/-- C4: Non-negativity clamp before the provider call.  In both derivative
wrappers, the state array handed to computeDerivsHydrogen is the clamped
input state, and every one of its entries is non-negative. -/
theorem clamp_before_provider (P : Provider) (Nzk : List ℚ) (t : ℚ)
    (Vzk : List ℚ) (out : Channel → List PyVal) (Te Ne r : ℚ) :
    (evolveDensity P Nzk t Vzk out Te Ne).providerArg = clampLoop Nzk
    ∧ (evolveDensity_withRefuelling P Nzk t Vzk out Te Ne r).providerArg
        = clampLoop Nzk
    ∧ ∀ x ∈ (evolveDensity P Nzk t Vzk out Te Ne).providerArg, 0 ≤ x := by
  exact ⟨rfl, rfl, clampLoop_nonneg Nzk⟩

/-- C10: the clamp writes into the caller-supplied array itself, so after
either wrapper runs on a state with a negative entry, the array the caller
(the ODE driver) holds contains the clamped values and differs from the
state it passed in. -/
theorem clamp_mutates_in_place (P : Provider) (Nzk : List ℚ) (t : ℚ)
    (Vzk : List ℚ) (out : Channel → List PyVal) (Te Ne r : ℚ)
    (h : ∃ k, k < Nzk.length ∧ Nzk.getD k 0 < 0) :
    (evolveDensity P Nzk t Vzk out Te Ne).NzkPost = clampLoop Nzk
    ∧ (evolveDensity_withRefuelling P Nzk t Vzk out Te Ne r).NzkPost = clampLoop Nzk
    ∧ clampLoop Nzk ≠ Nzk := by
  refine ⟨rfl, rfl, ?_⟩
  rcases h with ⟨k, hk, hneg⟩
  intro heq
  have h1 : (clampLoop Nzk).getD k 0 = Nzk.getD k 0 := by rw [heq]
  rw [clampLoop, getD_map_getD _ Nzk k hk 0 0, if_pos hneg] at h1
  exact absurd h1.symm (ne_of_lt hneg)

/-- C10 witness: a concrete call on a state with a negative entry. -/
theorem clamp_mutates_in_place_witness :
    (evolveDensity (fun _ _ _ _ => ⟨0, 0, [0, 0], [], 0, [], 0, []⟩)
        [-1, 2] 0 [0, 0] (fun _ => []) 1 1).NzkPost = clampLoop [-1, 2]
    ∧ (evolveDensity_withRefuelling (fun _ _ _ _ => ⟨0, 0, [0, 0], [], 0, [], 0, []⟩)
        [-1, 2] 0 [0, 0] (fun _ => []) 1 1 1).NzkPost = clampLoop [-1, 2]
    ∧ clampLoop [-1, 2] ≠ [-1, 2] := by
  exact clamp_mutates_in_place (fun _ _ _ _ => ⟨0, 0, [0, 0], [], 0, [], 0, []⟩)
    [-1, 2] 0 [0, 0] (fun _ => []) 1 1 1
    ⟨0, by norm_num, by norm_num⟩

/-- C9 counterexample: one provider call records nothing for the Pcool
channel (and likewise for the other channels outside additional_out_keys),
while it does append one Prad entry, so it is false that every named
channel of the snapshot gets one recorded entry per provider call. -/
theorem snapshot_channels_counterexample :
    ((evolveDensity (fun _ _ _ _ => ⟨2, 3, [1, 1], [4], 5, [6], 7, [8]⟩)
        [1, 2] 0 [0, 0] (fun _ => []) 50 100).out Channel.Pcool).length = 0
    ∧ ((evolveDensity (fun _ _ _ _ => ⟨2, 3, [1, 1], [4], 5, [6], 7, [8]⟩)
        [1, 2] 0 [0, 0] (fun _ => []) 50 100).out Channel.Prad).length = 1 := by
  exact ⟨rfl, rfl⟩

/-- C9 amended: on every evolveDensity call, exactly the channels in
additional_out_keys - Prad and dNzk - receive one appended entry, taken
verbatim from the provider snapshot; the remaining named channels are left
untouched. -/
theorem snapshot_recorded_channels (P : Provider) (Nzk : List ℚ) (t : ℚ)
    (Vzk : List ℚ) (out : Channel → List PyVal) (Te Ne : ℚ) :
    (evolveDensity P Nzk t Vzk out Te Ne).out Channel.Prad
        = out Channel.Prad ++ [PyVal.scalar (P Te Ne (clampLoop Nzk) Vzk).Prad]
    ∧ (evolveDensity P Nzk t Vzk out Te Ne).out Channel.dNzk
        = out Channel.dNzk ++ [PyVal.array (P Te Ne (clampLoop Nzk) Vzk).dNzk]
    ∧ (evolveDensity P Nzk t Vzk out Te Ne).out Channel.Pcool = out Channel.Pcool
    ∧ (evolveDensity P Nzk t Vzk out Te Ne).out Channel.F_zk = out Channel.F_zk
    ∧ (evolveDensity P Nzk t Vzk out Te Ne).out Channel.dNe = out Channel.dNe
    ∧ (evolveDensity P Nzk t Vzk out Te Ne).out Channel.F_i = out Channel.F_i
    ∧ (evolveDensity P Nzk t Vzk out Te Ne).out Channel.dNn = out Channel.dNn
    ∧ (evolveDensity P Nzk t Vzk out Te Ne).out Channel.F_n = out Channel.F_n := by
  exact ⟨rfl, rfl, rfl, rfl, rfl, rfl, rfl, rfl⟩

/-- The odeint output as consumed by timeIntegrate: the result grid (one
row per requested output time), the full_output bookkeeping arrays nfe
(cumulative derivative evaluations at each step) and tcur (internal time
reached at each step), the convergence message of the driver, and the
per-evaluation diagnostic logs that the derivative wrapper appended to
additional_out during the run (the Prad and dNzk channels, the only
recorded ones). -/
structure OdeOutput : Type where
  result : List (List ℚ)
  nfe : List ℕ
  tcur : List ℚ
  message : String
  logPrad : List ℚ
  logDNzk : List (List ℚ)

/-- An abstract ODE driver: odeint applied to the derivative function
selected by timeIntegrate, as a function of the call parameters. -/
def Driver : Type := PyVal → PyVal → PyVal → List ℚ → OdeOutput

/-- What one timeIntegrate call produces: the returned result grid, the
two resampled diagnostic channels written back into additional_out, and
the content of self.Nzk after the call. -/
structure IntegrateOutcome : Type where
  result : List (List ℚ)
  PradOut : ℕ → Option ℚ
  dNzkOut : ℕ → Option (List ℚ)
  NzkAfter : List ℚ

/-- Formatting a value with the float format spec .2e, as the progress
print at the top of timeIntegrate does for Te, Ne and the refuelling
rate: defined for scalars, a TypeError for arrays (object.__format__
rejects a non-empty format spec for an ndarray). -/
def formatFloatSpec : PyVal → Except String Unit
  | PyVal.scalar _ => Except.ok ()
  | PyVal.array _ =>
      Except.error ("TypeError: unsupported format string passed to ndarray.__format__")

/-- Python truthiness of (v == 0): a boolean for a scalar; for a numpy
array the comparison is elementwise and taking its truth value raises
unless the array has exactly one element. -/
def pyEqZeroBool : PyVal → Except String Bool
  | PyVal.scalar q => Except.ok (decide (q = 0))
  | PyVal.array l =>
      match l with
      | [x] => Except.ok (decide (x = 0))
      | _ => Except.error ("ValueError: the truth value of an array with more than one element is ambiguous")

/-- Python truthiness of (v > 0), same shape as pyEqZeroBool. -/
def pyGtZeroBool : PyVal → Except String Bool
  | PyVal.scalar q => Except.ok (decide (0 < q))
  | PyVal.array l =>
      match l with
      | [x] => Except.ok (decide (0 < x))
      | _ => Except.error ("ValueError: the truth value of an array with more than one element is ambiguous")

/-- AtomicSolver.timeIntegrate(Te, Ne, refuelling_rate): print the run
parameters (the only place the context surfaces, and a TypeError when one
of them is an array), branch on refuelling_rate == 0 to select the
derivative function, run the driver, resample the recorded channels onto
t_values, and reset self.Nzk to the canonical ground-state vector when
refuelling_rate > 0 (lines 203-205; the no-refuelling branch deliberately
leaves self.Nzk unchanged).  The driver result grid is returned
unconditionally: the convergence message of the odeint full_output
dictionary is never inspected. -/
def timeIntegrate (Z : ℕ) (tvals : List ℚ) (driver : Driver)
    (Te Ne r : PyVal) (Nzk : List ℚ) : Except String IntegrateOutcome := do
  let _ ← formatFloatSpec Te
  let _ ← formatFloatSpec Ne
  let _ ← formatFloatSpec r
  let _ ← pyEqZeroBool r
  let drv := driver Te Ne r Nzk
  let gt ← pyGtZeroBool r
  pure { result := drv.result
         PradOut := resampleOut (0 : ℚ) tvals drv.tcur drv.nfe drv.logPrad
         dNzkOut := resampleOut (List.replicate (Z + 1) (0 : ℚ)) tvals drv.tcur
           drv.nfe drv.logDNzk
         NzkAfter := if gt then canonicalNzk Z else Nzk }

/-- The result grid a timeIntegrate call hands back, none if it raised. -/
def resultOf : Except String IntegrateOutcome → Option (List (List ℚ))
  | Except.error _ => none
  | Except.ok o => some o.result

/-- A Python for-loop whose body may raise: the first exception aborts the
loop and propagates.  None of the scan drivers installs a handler. -/
def foldE {σ α : Type} (f : σ → α → Except String σ) : σ → List α → Except String σ
  | s, [] => Except.ok s
  | s, a :: l =>
      match f s a with
      | Except.error e => Except.error e
      | Except.ok s2 => foldE f s2 l

/-- AtomicSolver.scanTempCREquilibrium: for each Te run one integration
and keep the terminal row result[-1,:].  The per-point integration call is
abstracted as a fallible function of Te; the loop body has no try/except,
so the first failure propagates out of the loop. -/
def scanTempCREquilibrium (TeValues : List ℚ)
    (integrate : ℚ → Except String (List (List ℚ))) :
    Except String (List (List ℚ)) :=
  foldE (fun results Te =>
      match integrate Te with
      | Except.error e => Except.error e
      | Except.ok result => Except.ok (results ++ [result.getLastD []])) [] TeValues

/-- The solver state threaded through scanTempRefuelling: the current
self.Nzk, together with the history of initial states supplied to the
grid points and of terminal rows collected, which are the observables the
scan-policy statements below speak about. -/
structure ScanState : Type where
  Nzk : List ℚ
  inits : List (List ℚ)
  terminals : List (List ℚ)

/-- One grid point of scanTempRefuelling: call timeIntegrate(Te, N,
refuelling_rate) on the current self.Nzk (abstracted as the fallible
integrate), collect the terminal row result[-1,:], and apply the self.Nzk
policy of timeIntegrate lines 203-208: reset to the canonical ground
state when the refuelling rate is positive, keep self.Nzk otherwise. -/
def scanPointStep (Z : ℕ) (r : ℚ)
    (integrate : ℚ → ℚ → List ℚ → Except String (List (List ℚ)))
    (Te N : ℚ) (st : ScanState) : Except String ScanState :=
  match integrate Te N st.Nzk with
  | Except.error e => Except.error e
  | Except.ok result =>
      Except.ok { Nzk := if 0 < r then canonicalNzk Z else st.Nzk
                  inits := st.inits ++ [st.Nzk]
                  terminals := st.terminals ++ [result.getLastD []] }

/-- AtomicSolver.scanTempRefuelling(Te_values, N_values, refuelling_rate):
a nested loop over temperatures (outer) and densities (inner), one
integration per pair, with self.Nzk threaded through the whole sweep. -/
def scanTempRefuellingRun (Z : ℕ) (r : ℚ)
    (integrate : ℚ → ℚ → List ℚ → Except String (List (List ℚ)))
    (TeValues NValues : List ℚ) (st0 : ScanState) : Except String ScanState :=
  foldE (fun st Te => foldE (fun st2 N => scanPointStep Z r integrate Te N st2) st NValues)
    st0 TeValues

/-- AtomicSolver.scanDensityCREquilibrium: for each Ne the source calls
self.timeIntegrate(self.Te_const, Ne, self.t_values) - so the t_values
array lands in the refuelling_rate positional parameter - then stores the
terminal row and assigns self.Nzk = result[-1,:] to carry it into the
next density point. -/
def scanDensityCREquilibrium (Z : ℕ) (tvals : List ℚ) (TeConst : ℚ)
    (NeValues : List ℚ) (driver : Driver) (Nzk0 : List ℚ) :
    Except String (List (List ℚ) × List ℚ) :=
  foldE (fun acc Ne =>
      match timeIntegrate Z tvals driver (PyVal.scalar TeConst) (PyVal.scalar Ne)
          (PyVal.array tvals) acc.2 with
      | Except.error e => Except.error e
      | Except.ok out =>
          Except.ok (acc.1 ++ [out.result.getLastD []], out.result.getLastD []))
    ([], Nzk0) NeValues

section ScanLemmas

theorem getD_concat_self {β : Type} (l : List β) (x : β) (d : β) :
    (l ++ [x]).getD l.length d = x := by
  induction l with
  | nil => rfl
  | cons y ys ih => simpa using ih

theorem foldE_inv {σ α : Type} (inv : σ → Prop) (f : σ → α → Except String σ)
    (hstep : ∀ s a s2, f s a = Except.ok s2 → inv s → inv s2) :
    ∀ (l : List α) (s0 sF : σ), foldE f s0 l = Except.ok sF → inv s0 → inv sF := by
  intro l
  induction l with
  | nil =>
      intro s0 sF h h0
      have hss : s0 = sF := by simpa [foldE] using h
      rw [← hss]
      exact h0
  | cons a l ih =>
      intro s0 sF h h0
      rw [foldE] at h
      cases hfa : f s0 a with
      | error e =>
          rw [hfa] at h
          exact absurd h (fun hc => Except.noConfusion hc)
      | ok s2 =>
          rw [hfa] at h
          exact ih s2 sF h (hstep s0 a s2 hfa h0)

/-- Invariant threaded through the refuelling scan: the first recorded
initial state is the incoming solver state, every later one is the
canonical reset vector, and once at least one point has run the current
self.Nzk is canonical. -/
def scanInv (Z : ℕ) (base : List ℚ) (st : ScanState) : Prop :=
  (st.inits = [] → st.Nzk = base)
  ∧ (st.inits ≠ [] → st.inits.getD 0 [] = base)
  ∧ (∀ i, 1 ≤ i → i < st.inits.length → st.inits.getD i [] = canonicalNzk Z)
  ∧ (st.inits ≠ [] → st.Nzk = canonicalNzk Z)

theorem scanPointStep_inv (Z : ℕ) (r : ℚ) (hr : 0 < r)
    (integrate : ℚ → ℚ → List ℚ → Except String (List (List ℚ)))
    (base : List ℚ) (Te N : ℚ) (st st2 : ScanState)
    (h : scanPointStep Z r integrate Te N st = Except.ok st2)
    (hinv : scanInv Z base st) : scanInv Z base st2 := by
  obtain ⟨h1, h2, h3, h4⟩ := hinv
  rw [scanPointStep] at h
  cases hint : integrate Te N st.Nzk with
  | error e =>
      rw [hint] at h
      exact absurd h (fun hc => Except.noConfusion hc)
  | ok result =>
      rw [hint] at h
      injection h with h5
      subst h5
      refine ⟨?_, ?_, ?_, ?_⟩
      · intro hemp
        exact absurd hemp (by simp)
      · intro _
        show (st.inits ++ [st.Nzk]).getD 0 [] = base
        rcases eq_or_ne st.inits [] with hc | hc
        · rw [hc]
          simpa using h1 hc
        · rw [List.getD_append _ _ _ _ (List.length_pos.mpr hc)]
          exact h2 hc
      · intro i hi1 hi2
        show (st.inits ++ [st.Nzk]).getD i [] = canonicalNzk Z
        have hlen : (st.inits ++ [st.Nzk]).length = st.inits.length + 1 := by simp
        rcases Nat.lt_or_ge i st.inits.length with hlt | hge
        · rw [List.getD_append _ _ _ _ hlt]
          exact h3 i hi1 hlt
        · have hieq : i = st.inits.length := by
            rw [hlen] at hi2
            omega
          subst hieq
          rw [getD_concat_self]
          have hne : st.inits ≠ [] := List.length_pos.mp hi1
          exact h4 hne
      · intro _
        show (if 0 < r then canonicalNzk Z else st.Nzk) = canonicalNzk Z
        rw [if_pos hr]

end ScanLemmas

/-- C5 counterexample: a driver outcome whose message reports failure
(excess work, the lsoda non-convergence report) and whose grid has one row
against three requested output times.  timeIntegrate does not raise: it
returns that partially filled grid to the caller. -/
theorem timeIntegrate_failure_counterexample :
    resultOf (timeIntegrate 1 [(1 : ℚ), 2, 3]
        (fun _ _ _ _ => ⟨[[3, 4]], [1], [1], "Excess work done on this call.", [], []⟩)
        (PyVal.scalar 50) (PyVal.scalar 100) (PyVal.scalar 0) [9, 9])
      = some [[3, 4]]
    ∧ (⟨[[3, 4]], [1], [1], "Excess work done on this call.", [], []⟩ : OdeOutput).message
        ≠ "Integration successful."
    ∧ ([[3, 4]] : List (List ℚ)).length ≠ ([(1 : ℚ), 2, 3] : List ℚ).length := by
  refine ⟨rfl, by decide, by decide⟩

/-- C5 amended: timeIntegrate performs no convergence check.  For every
driver outcome, converged or not, the call succeeds and hands the caller
exactly the driver result grid; the convergence message is never
inspected, and the (Te, Ne, refuelling rate) context only appears in the
printed progress line. -/
theorem timeIntegrate_ignores_driver_failure (Z : ℕ) (tvals : List ℚ)
    (driver : Driver) (Te Ne r : ℚ) (Nzk : List ℚ) :
    ∃ out, timeIntegrate Z tvals driver (PyVal.scalar Te) (PyVal.scalar Ne)
        (PyVal.scalar r) Nzk = Except.ok out
      ∧ out.result
          = (driver (PyVal.scalar Te) (PyVal.scalar Ne) (PyVal.scalar r) Nzk).result := by
  exact ⟨_, rfl, rfl⟩

/-- C6 counterexample: a two-point temperature sweep whose first point
succeeds and whose second point raises.  The sweep evaluates to the
failure: the collected first point is discarded, nothing is recorded as
missing, and the scan does not continue. -/
theorem scan_failure_counterexample :
    scanTempCREquilibrium [1, 2]
        (fun Te => if Te ≤ 1 then Except.ok [[7, 8]] else Except.error ("lsoda failure"))
      = Except.error ("lsoda failure")
    ∧ (fun Te => if Te ≤ (1 : ℚ) then Except.ok [[(7 : ℚ), 8]]
          else Except.error ("lsoda failure")) 1
        = Except.ok [[7, 8]] := by
  exact ⟨rfl, rfl⟩

/-- C6 amended: no scan driver catches a per-point failure.  In the
temperature scan, if every point before Te0 succeeds and Te0 fails, the
whole sweep evaluates to that failure, discarding the collected prefix;
in the temperature-density refuelling scan a failing first point likewise
aborts the whole sweep. -/
theorem scan_failure_propagates
    (pre post : List ℚ) (Te0 : ℚ)
    (integrate : ℚ → Except String (List (List ℚ))) (e : String)
    (hpre : ∀ Te ∈ pre, ∃ v, integrate Te = Except.ok v)
    (hfail : integrate Te0 = Except.error e)
    (Z : ℕ) (r : ℚ)
    (integrate2 : ℚ → ℚ → List ℚ → Except String (List (List ℚ)))
    (Te1 N1 : ℚ) (TeRest NRest : List ℚ) (st0 : ScanState) (e2 : String)
    (hfail2 : integrate2 Te1 N1 st0.Nzk = Except.error e2) :
    scanTempCREquilibrium (pre ++ Te0 :: post) integrate = Except.error e
    ∧ scanTempRefuellingRun Z r integrate2 (Te1 :: TeRest) (N1 :: NRest) st0
        = Except.error e2 := by
  constructor
  · have key : ∀ (acc : List (List ℚ)) (pre2 : List ℚ),
        (∀ Te ∈ pre2, ∃ v, integrate Te = Except.ok v) →
        foldE (fun results Te =>
            match integrate Te with
            | Except.error e3 => Except.error e3
            | Except.ok result => Except.ok (results ++ [result.getLastD []]))
          acc (pre2 ++ Te0 :: post) = Except.error e := by
      intro acc pre2
      induction pre2 generalizing acc with
      | nil =>
          intro _
          simp only [List.nil_append, foldE, hfail]
      | cons Te pre3 ih =>
          intro hp
          obtain ⟨v, hv⟩ := hp Te (List.mem_cons_self Te pre3)
          simp only [List.cons_append, foldE, hv]
          exact ih (acc ++ [v.getLastD []])
            (fun x hx => hp x (List.mem_cons_of_mem Te hx))
    exact key [] pre hpre
  · rw [scanTempRefuellingRun]
    simp only [foldE, scanPointStep, hfail2]

/-- C6 witness: a concrete sweep where the first point succeeds, the
second fails, and the failure is the value of the whole sweep; and a
refuelling sweep aborted by its failing first point. -/
theorem scan_failure_propagates_witness :
    scanTempCREquilibrium [1, 2]
        (fun Te => if Te ≤ 1 then Except.ok [[7, 8]] else Except.error ("boom"))
      = Except.error ("boom")
    ∧ scanTempRefuellingRun 1 1 (fun _ _ _ => Except.error ("boom2")) [5] [6]
        ⟨[1, 0], [], []⟩
      = Except.error ("boom2") := by
  exact scan_failure_propagates [1] [] 2
    (fun Te => if Te ≤ 1 then Except.ok [[7, 8]] else Except.error ("boom")) "boom"
    (by
      intro Te hTe
      rw [List.mem_singleton] at hTe
      subst hTe
      exact ⟨[[7, 8]], rfl⟩)
    rfl 1 1 (fun _ _ _ => Except.error ("boom2")) 5 6 [] [] ⟨[1, 0], [], []⟩ "boom2" rfl

/-- C7 counterexample: with refuelling active and the solver state as
constructed by __init__ (Nzk[0] = 1e20), the first grid point of a
temperature-density scan receives that construction state while the
second receives the 1e19 canonical reset vector.  The two initial states
differ, so it is false that every grid point receives the same canonical
ground-state vector. -/
theorem refuelling_scan_first_point_counterexample :
    Except.map ScanState.inits
        (scanTempRefuellingRun 1 1 (fun _ _ _ => Except.ok [[0, 0]]) [1] [1, 2]
          ⟨initNzk 1, [], []⟩)
      = Except.ok [initNzk 1, canonicalNzk 1]
    ∧ initNzk 1 ≠ canonicalNzk 1 := by
  exact ⟨rfl, by decide⟩

/-- C7 amended: in the refuelling scan every grid point after the first
receives the canonical ground-state reset vector, regardless of the
outcomes of earlier points; the first point instead receives the solver
state from before the scan. -/
theorem refuelling_scan_reset_after_first (Z : ℕ) (r : ℚ)
    (integrate : ℚ → ℚ → List ℚ → Except String (List (List ℚ)))
    (TeValues NValues : List ℚ) (st0 stF : ScanState)
    (hr : 0 < r) (h0 : st0.inits = [])
    (hrun : scanTempRefuellingRun Z r integrate TeValues NValues st0 = Except.ok stF) :
    (∀ i, 1 ≤ i → i < stF.inits.length → stF.inits.getD i [] = canonicalNzk Z)
    ∧ (stF.inits ≠ [] → stF.inits.getD 0 [] = st0.Nzk) := by
  have hstep : ∀ (st : ScanState) (Te : ℚ) (st2 : ScanState),
      foldE (fun s N => scanPointStep Z r integrate Te N s) st NValues = Except.ok st2 →
      scanInv Z st0.Nzk st → scanInv Z st0.Nzk st2 := by
    intro st Te st2 h hin
    exact foldE_inv (scanInv Z st0.Nzk) _
      (fun s N s2 hs hi => scanPointStep_inv Z r hr integrate st0.Nzk Te N s s2 hs hi)
      NValues st st2 h hin
  have hbase : scanInv Z st0.Nzk st0 := by
    refine ⟨fun _ => rfl, fun hne => absurd h0 hne, ?_, fun hne => absurd h0 hne⟩
    intro i hi1 hi2
    rw [h0] at hi2
    simp at hi2
  have hinv := foldE_inv (scanInv Z st0.Nzk) _ hstep TeValues st0 stF hrun hbase
  exact ⟨hinv.2.2.1, hinv.2.1⟩

/-- C7 witness: the reset rule applied to a concrete two-point scan: the
second recorded initial state is the canonical vector. -/
theorem refuelling_scan_reset_after_first_witness :
    (⟨canonicalNzk 1, [initNzk 1, canonicalNzk 1], [[0, 0], [0, 0]]⟩
        : ScanState).inits.getD 1 [] = canonicalNzk 1 := by
  exact (refuelling_scan_reset_after_first 1 1 (fun _ _ _ => Except.ok [[0, 0]]) [1] [1, 2]
      ⟨initNzk 1, [], []⟩
      ⟨canonicalNzk 1, [initNzk 1, canonicalNzk 1], [[0, 0], [0, 0]]⟩
      (by norm_num) rfl rfl).1 1 (le_refl 1) (by decide)

/-- C8: the density scan with carry-over never reaches its first
integration.  scanDensityCREquilibrium passes self.t_values as the third
positional argument of timeIntegrate, which is refuelling_rate, and
formatting that array in the progress print raises a TypeError; the whole
scan fails on the first density point, so no terminal state is ever
carried over to a next point. -/
theorem scanDensity_type_error :
    scanDensityCREquilibrium 1 [(1 : ℚ), 2, 3] 50 [100]
        (fun _ _ _ _ => ⟨[[1, 1]], [1], [1], "Integration successful.", [], []⟩)
        (initNzk 1)
      = Except.error ("TypeError: unsupported format string passed to ndarray.__format__") := by
  rfl

end Prad
